import Mathlib

/-!
Shallow embedding of the image_processor service (src/app), covering the
data model (models.py), the upload endpoint, the background orchestrator
process_images, artifact generation and the status endpoint (routes.py).

Strings are modelled as Lean String; helpers that Python performs on str
(split on a comma, strip, the \W-removal of normalize) are implemented at
the character-list level so that all definitions reduce in the kernel.
Database sessions are modelled explicitly: a run is a list of operations
(stage a mutation, commit, rollback, outbound POST) executed against a
pair of states (durable store, session view), mirroring SQLAlchemy with
autocommit and autoflush disabled.
-/

namespace ImageProcessor

/-- Characters Python str.strip removes by default. -/
def isPySpace (c : Char) : Bool :=
  c = ' ' || c = '\t' || c = '\n' || c = '\r' || c = '\x0b' || c = '\x0c'

/-- Python str.strip: drop whitespace from both ends. -/
def stripChars (cs : List Char) : List Char :=
  ((cs.dropWhile isPySpace).reverse.dropWhile isPySpace).reverse

/-- Python str.strip on a String. -/
def pyStrip (s : String) : String :=
  String.mk (stripChars s.data)

/-- Python s.split(c) at the character level: splitting the empty string
gives one empty field, like Python. -/
def splitCharAux (sep : Char) : List Char → List Char → List (List Char)
  | [], acc => [acc.reverse]
  | c :: cs, acc =>
      if c = sep then acc.reverse :: splitCharAux sep cs []
      else splitCharAux sep cs (c :: acc)

/-- Python s.split(sep) for a one-character separator. -/
def pySplit (sep : Char) (s : String) : List String :=
  (splitCharAux sep s.data []).map String.mk

/-- Word characters of the Python regex class backslash-w (ASCII model):
alphanumerics and the underscore. -/
def isWordChar (c : Char) : Bool :=
  c.isAlphanum || c = '_'

/-- routes.py normalize: re.sub removing the regex class backslash-W
(non-word characters), then lowercase.  Note the underscore is a word
character, so it survives. -/
def normalize (s : String) : String :=
  String.mk ((s.data.filter isWordChar).map Char.toLower)

/-- Modelled from the spec: the normalization the spec describes, which
removes every non-alphanumeric character (the underscore included) and
lowercases.  Kept separate from normalize to compare the two. -/
def normalizeSpec (s : String) : String :=
  String.mk ((s.data.filter Char.isAlphanum).map Char.toLower)

/-- models.py ProcessingRequest (a Job).  created_at and completed_at are
abstract clock readings (Nat). -/
structure ProcessingRequest where
  request_id : String
  status : String
  created_at : Nat
  completed_at : Option Nat
  callback_url : Option String
deriving DecidableEq

/-- models.py Product (a Row).  input_image_urls is the comma-joined
stored text; output_image_urls is nullable. -/
structure Product where
  request_id : String
  serial_number : String
  product_name : String
  input_image_urls : String
  output_image_urls : Option String
  status : String
deriving DecidableEq

/-- The durable store: requests and products tables, each in load order. -/
@[ext]
structure DB where
  requests : List ProcessingRequest
  products : List Product
deriving DecidableEq

/-- Outcome of one requests.get attempt plus the downstream PIL steps:
either a transport error (exception from requests.get), or a response
with its status code and whether decoding (Image.open) and re-encoding
(convert and save) would succeed on the body. -/
inductive FetchOutcome where
  | transportError
  | response (statusCode : Nat) (decodeOk : Bool) (encodeOk : Bool)
deriving DecidableEq

/-- One outbound webhook POST as the code issues it: target URL, the JSON
payload fields, and the timeout passed to requests.post. -/
structure WebhookAttempt where
  url : String
  payload_request_id : String
  payload_status : String
  timeout : Nat
deriving DecidableEq

/-- routes.py lines 81-96, the per-URL body of process_images: on status
code exactly 200 the body is decoded, converted to RGB, saved as JPEG at
quality 50 under a fresh uuid name, and the local URL is returned; any
other status code, transport error, decode error or encode error yields
no output.  name is the fresh uuid4 hex string for this attempt. -/
def fetchOne (o : FetchOutcome) (name : String) : Option String :=
  match o with
  | FetchOutcome.transportError => none
  | FetchOutcome.response statusCode decodeOk encodeOk =>
      if statusCode = 200 then
        if decodeOk && encodeOk then
          some ("/processed_images/" ++ name ++ ".jpg")
        else none
      else none

/-- Whether the per-URL body prints a diagnostic line: the non-200 branch
prints a failure line, and the except branch prints the error; a fully
successful attempt prints nothing. -/
def fetchLogged (o : FetchOutcome) : Bool :=
  match o with
  | FetchOutcome.transportError => true
  | FetchOutcome.response statusCode decodeOk encodeOk =>
      if statusCode = 200 then !(decodeOk && encodeOk) else true

/-- The JPEG quality factor passed to save in routes.py line 89. -/
def jpegQuality : Nat := 50

/-- routes.py lines 76-80: split the stored input_image_urls on a comma,
strip each entry, and skip the entries that are empty after stripping. -/
def parseUrls (s : String) : List String :=
  ((pySplit ',' s).map pyStrip).filter (fun u => u ≠ "")

/-- routes.py lines 77-96: attempt each remaining URL in order.  env maps
(url, attempt index) to its network outcome; names supplies the fresh
uuid for each attempt index; k is the index of the next attempt.
Returns the successful local URLs in completion order and the next
attempt index. -/
def attemptUrls (env : String → Nat → FetchOutcome) (names : Nat → String) :
    List String → Nat → List String × Nat
  | [], k => ([], k)
  | u :: us, k =>
      let r := fetchOne (env u k) (names k)
      let rest := attemptUrls env names us (k + 1)
      (match r with
       | some url => url :: rest.1
       | none => rest.1, rest.2)

/-- routes.py lines 74-99, the body of the row loop for one product:
attempt every parsed URL, then set output_image_urls to the comma-join of
the successes and status to processed. -/
def processOneRow (env : String → Nat → FetchOutcome) (names : Nat → String)
    (k : Nat) (p : Product) : Product :=
  let outs := (attemptUrls env names (parseUrls p.input_image_urls) k).1
  { p with output_image_urls := some (String.intercalate "," outs),
           status := "processed" }

/-- The session-level result of the row loop of process_images: products
of the request are replaced by their processed versions (threading the
attempt counter in row order); other products are untouched. -/
def processProducts (rid : String) (env : String → Nat → FetchOutcome)
    (names : Nat → String) : List Product → Nat → List Product × Nat
  | [], k => ([], k)
  | p :: ps, k =>
      if p.request_id = rid then
        let p' := processOneRow env names k p
        let k' := (attemptUrls env names (parseUrls p.input_image_urls) k).2
        let rest := processProducts rid env names ps k'
        (p' :: rest.1, rest.2)
      else
        let rest := processProducts rid env names ps k
        (p :: rest.1, rest.2)

/-- routes.py lines 105-109: query the first ProcessingRequest with this
request_id and, when found, set status completed and completed_at. -/
def updateFirstRequest (rid : String) (now : Nat) :
    List ProcessingRequest → List ProcessingRequest
  | [] => []
  | r :: rs =>
      if r.request_id = rid then
        { r with status := "completed", completed_at := some now } :: rs
      else r :: updateFirstRequest rid now rs

/-- The committed database state at the end of a successful
process_images run (lines 74-110): all rows of the request processed and
the request record completed. -/
def process_images (rid : String) (env : String → Nat → FetchOutcome)
    (names : Nat → String) (now : Nat) (db : DB) : DB :=
  { requests := updateFirstRequest rid now db.requests,
    products := (processProducts rid env names db.products 0).1 }

/-- One session-level operation of a run against the store.  mutate is a
db.add style staging of a change in the session; commit makes the session
durable; rollback discards the staged changes; post is an outbound
webhook POST (it never touches the database). -/
inductive Op where
  | mutate (f : DB → DB)
  | commit
  | rollback
  | post (a : WebhookAttempt)

/-- Execution state of a run: the durable store, the session view, and
the outbound POSTs made so far. -/
structure Exec where
  durable : DB
  session : DB
  posts : List WebhookAttempt

/-- Open a fresh session on a durable store. -/
def initExec (db : DB) : Exec :=
  { durable := db, session := db, posts := [] }

/-- SQLAlchemy semantics with autocommit and autoflush off: staged
mutations live in the session until commit copies the session over the
durable store; rollback resets the session to the durable store. -/
def step (s : Exec) : Op → Exec
  | Op.mutate f => { s with session := f s.session }
  | Op.commit => { s with durable := s.session }
  | Op.rollback => { s with session := s.durable }
  | Op.post a => { s with posts := s.posts ++ [a] }

/-- Run a list of operations from an execution state. -/
def runOps (s : Exec) : List Op → Exec :=
  List.foldl step s

/-- The durable store as an independent status query would observe it
after each prefix of the run: state 0 is before any operation. -/
def durableStates (db : DB) (ops : List Op) : List DB :=
  (List.range (ops.length + 1)).map (fun j => (runOps (initExec db) (ops.take j)).durable)

/-- The staging operations of the row loop of process_images, one mutate
per product of the request, in load order.  i is the absolute position in
the products table, k the attempt counter. -/
def rowOps (rid : String) (env : String → Nat → FetchOutcome)
    (names : Nat → String) : List Product → Nat → Nat → List Op
  | [], _, _ => []
  | p :: ps, i, k =>
      if p.request_id = rid then
        Op.mutate (fun d => { d with products := d.products.set i (processOneRow env names k p) })
          :: rowOps rid env names ps (i + 1) (attemptUrls env names (parseUrls p.input_image_urls) k).2
      else rowOps rid env names ps (i + 1) k

/-- routes.py lines 112-123: after the commit, if the request record was
found and its callback_url is set and non-empty, one POST is made with
payload fields request_id and status completed and timeout 5; otherwise
none.  The POST outcome never reaches the database. -/
def webhookOps (rid : String) (db : DB) : List Op :=
  match db.requests.find? (fun r => r.request_id = rid) with
  | none => []
  | some r =>
      match r.callback_url with
      | none => []
      | some u =>
          if u = "" then []
          else [Op.post { url := u, payload_request_id := rid,
                          payload_status := "completed", timeout := 5 }]

/-- The operation trace of a successful process_images run: stage each
row mutation in order, stage the request update, commit once, then the
webhook POST if due.  No other commit appears anywhere in the trace. -/
def processImagesOps (rid : String) (env : String → Nat → FetchOutcome)
    (names : Nat → String) (now : Nat) (db : DB) : List Op :=
  rowOps rid env names db.products 0 0
    ++ [Op.mutate (fun d => { d with requests := updateFirstRequest rid now d.requests }),
        Op.commit]
    ++ webhookOps rid db

/-- The operation trace of a process_images run in which an unhandled
exception interrupts the body after j of its staging operations: the
except branch at lines 125-127 rolls the session back; no commit and no
POST happens. -/
def processImagesFailOps (rid : String) (env : String → Nat → FetchOutcome)
    (names : Nat → String) (now : Nat) (db : DB) (j : Nat) : List Op :=
  ((rowOps rid env names db.products 0 0
      ++ [Op.mutate (fun d => { d with requests := updateFirstRequest rid now d.requests })]).take j)
    ++ [Op.rollback]

/-- The header upload_csv requires after normalization, routes.py line
150. -/
def expectedHeader : List String :=
  ["sno", "productname", "inputimageurls"]

/-- Result of the upload endpoint: an HTTP error status with detail, or
the committed database together with the new request id. -/
inductive UploadResult where
  | httpError (statusCode : Nat) (detail : String)
  | ok (request_id : String) (db : DB)
deriving DecidableEq

/-- The row loop of upload_csv, lines 166-177: each CSV data row must
have exactly 3 fields; its fields are stripped and staged as a pending
Product with null output_image_urls. -/
def buildProducts (rid : String) : List (List String) → Option (List Product)
  | [] => some []
  | row :: rows =>
      match row with
      | [serial_number, product_name, input_image_urls] =>
          match buildProducts rid rows with
          | none => none
          | some ps =>
              some ({ request_id := rid,
                      serial_number := pyStrip serial_number,
                      product_name := pyStrip product_name,
                      input_image_urls := pyStrip input_image_urls,
                      output_image_urls := none,
                      status := "pending" } :: ps)
      | _ => none

/-- routes.py lines 131-188, upload_csv.  rows is the parsed CSV (header
first); contentType is the multipart content type; webhook_url the
optional form field; rid the uuid4 the handler draws; createdAt the
server clock at insert.  Any HTTPException path leaves the transaction
uncommitted, so the store is returned unchanged inside the error case by
the caller (see uploadRun). -/
def upload_csv (contentType : String) (rows : List (List String))
    (webhook_url : Option String) (rid : String) (createdAt : Nat)
    (db : DB) : UploadResult :=
  if contentType ≠ "text/csv" then
    UploadResult.httpError 400 "Invalid file type. Only CSV files are accepted."
  else
    match rows with
    | [] => UploadResult.httpError 400 "CSV file is empty."
    | header :: dataRows =>
        if header.map normalize ≠ expectedHeader then
          UploadResult.httpError 400 "Invalid CSV header format."
        else
          match buildProducts rid dataRows with
          | none => UploadResult.httpError 400 "CSV row does not have exactly 3 columns."
          | some ps =>
              UploadResult.ok rid
                { requests := db.requests
                    ++ [{ request_id := rid, status := "pending",
                          created_at := createdAt, completed_at := none,
                          callback_url := webhook_url }],
                  products := db.products ++ ps }

/-- The durable store after an upload request: unchanged on any
HTTPException (the session was never committed and is discarded when
get_db closes it), the committed state on success. -/
def uploadRun (contentType : String) (rows : List (List String))
    (webhook_url : Option String) (rid : String) (createdAt : Nat)
    (db : DB) : DB :=
  match upload_csv contentType rows webhook_url rid createdAt db with
  | UploadResult.httpError _ _ => db
  | UploadResult.ok _ db' => db'

/-- The products of one request in load order, as
db.query(Product).filter(Product.request_id == rid).all() returns them. -/
def productsOf (db : DB) (rid : String) : List Product :=
  db.products.filter (fun p => p.request_id = rid)

/-- The list of four cells written for one product by routes.py lines
55-60: a null output_image_urls is rendered as the empty field by the
or-expression on line 59. -/
def renderRow (p : Product) : List String :=
  [p.serial_number, p.product_name, p.input_image_urls,
   match p.output_image_urls with
   | none => ""
   | some s => s]

/-- The fixed first row of the artifact, routes.py line 53. -/
def artifactHeader : List String :=
  ["S. No", "Product Name", "Input Image Urls", "Output Image Urls"]

/-- The rows handed to csv.writer by generate_output_csv, lines 51-60:
the header row, then one row per product of the request in load order. -/
def generate_output_csv (rid : String) (db : DB) : List (List String) :=
  artifactHeader :: (productsOf db rid).map renderRow

/-- The artifact side effect of GET /status, routes.py lines 217-221: fs
is the artifact file for this request id (none when absent).  When the
request exists with status completed and the file is absent it is
written; in every other case the filesystem is untouched. -/
def getStatusArtifact (rid : String) (db : DB)
    (fs : Option (List (List String))) : Option (List (List String)) :=
  match db.requests.find? (fun r => r.request_id = rid) with
  | none => fs
  | some r =>
      if r.status = "completed" then
        match fs with
        | some content => some content
        | none => some (generate_output_csv rid db)
      else fs

/-- Whether an operation is the commit. -/
def Op.isCommit : Op → Bool
  | Op.commit => true
  | _ => false

/-- Whether an operation reads or writes the database at all: only the
outbound POST does not. -/
def Op.touchesDb : Op → Bool
  | Op.post _ => false
  | _ => true

/-- The webhook attempt carried by an operation, if any. -/
def postOf : Op → Option WebhookAttempt
  | Op.post a => some a
  | _ => none

/-- The final execution state of a successful process_images run. -/
def processImagesRun (rid : String) (env : String → Nat → FetchOutcome)
    (names : Nat → String) (now : Nat) (db : DB) : Exec :=
  runOps (initExec db) (processImagesOps rid env names now db)

/-- The ProcessingRequest record the upload handler stages, routes.py
lines 159-163. -/
def newRequest (rid : String) (t : Nat) (w : Option String) : ProcessingRequest :=
  { request_id := rid, status := "pending", created_at := t,
    completed_at := none, callback_url := w }

/-- A small concrete store used to exercise the theorems: one pending
job r1 with a callback URL and two pending rows. -/
def exProduct1 : Product :=
  { request_id := "r1", serial_number := "1", product_name := "w",
    input_image_urls := "http://a/i.jpg", output_image_urls := none,
    status := "pending" }

def exProduct2 : Product :=
  { exProduct1 with serial_number := "2", input_image_urls := "" }

def exRequest : ProcessingRequest :=
  { request_id := "r1", status := "pending", created_at := 0,
    completed_at := none, callback_url := some "http://cb.example/hook" }

def exDb : DB :=
  { requests := [exRequest], products := [exProduct1, exProduct2] }

/-- A network in which every fetch raises a transport error. -/
def exEnvFail : String → Nat → FetchOutcome :=
  fun _ _ => FetchOutcome.transportError

def exNames : Nat → String :=
  fun _ => "u"

def exRequestDone : ProcessingRequest :=
  { exRequest with
    status := "completed"
    completed_at := some 5
    callback_url := none }

/-- A store holding one already completed job with one row. -/
def exDbDone : DB :=
  { requests := [exRequestDone], products := [exProduct1] }

theorem runOps_nil (s : Exec) : runOps s [] = s := rfl

theorem runOps_cons (s : Exec) (op : Op) (ops : List Op) :
    runOps s (op :: ops) = runOps (step s op) ops := rfl

theorem runOps_append (s : Exec) (ops₁ ops₂ : List Op) :
    runOps s (ops₁ ++ ops₂) = runOps (runOps s ops₁) ops₂ := by
  simp [runOps, List.foldl_append]

/-- A run containing no commit leaves the durable store untouched. -/
theorem durable_of_no_commit (ops : List Op) :
    ∀ s : Exec, (∀ op ∈ ops, op.isCommit = false) →
      (runOps s ops).durable = s.durable := by
  induction ops with
  | nil => intro s _; rfl
  | cons op ops ih =>
      intro s h
      rw [runOps_cons]
      have hop := h op (List.mem_cons_self op ops)
      have hrest : ∀ o ∈ ops, o.isCommit = false :=
        fun o ho => h o (List.mem_cons_of_mem op ho)
      rw [ih (step s op) hrest]
      cases op with
      | mutate f => rfl
      | commit => simp [Op.isCommit] at hop
      | rollback => rfl
      | post a => rfl

/-- Operations that do not touch the database leave both the durable
store and the session untouched. -/
theorem db_of_no_touch (ops : List Op) :
    ∀ s : Exec, (∀ op ∈ ops, op.touchesDb = false) →
      (runOps s ops).durable = s.durable ∧ (runOps s ops).session = s.session := by
  induction ops with
  | nil => intro s _; exact ⟨rfl, rfl⟩
  | cons op ops ih =>
      intro s h
      rw [runOps_cons]
      have hop := h op (List.mem_cons_self op ops)
      have hrest : ∀ o ∈ ops, o.touchesDb = false :=
        fun o ho => h o (List.mem_cons_of_mem op ho)
      cases op with
      | mutate f => simp [Op.touchesDb] at hop
      | commit => simp [Op.touchesDb] at hop
      | rollback => simp [Op.touchesDb] at hop
      | post a => exact ih (step s (Op.post a)) hrest

/-- The POSTs of a run are exactly the post operations of the trace, in
order. -/
theorem runOps_posts (ops : List Op) :
    ∀ s : Exec, (runOps s ops).posts = s.posts ++ ops.filterMap postOf := by
  induction ops with
  | nil => intro s; simp [runOps_nil]
  | cons op ops ih =>
      intro s
      rw [runOps_cons, List.filterMap_cons]
      cases op with
      | mutate f => simpa [postOf] using ih (step s (Op.mutate f))
      | commit => simpa [postOf] using ih (step s Op.commit)
      | rollback => simpa [postOf] using ih (step s Op.rollback)
      | post a =>
          simp only [postOf]
          rw [ih (step s (Op.post a))]
          simp [step]

/-- Every operation of the row loop is a staging mutate. -/
theorem rowOps_no_commit (rid : String) (env : String → Nat → FetchOutcome)
    (names : Nat → String) :
    ∀ (ps : List Product) (i k : Nat), ∀ op ∈ rowOps rid env names ps i k,
      op.isCommit = false ∧ postOf op = none := by
  intro ps
  induction ps with
  | nil => intro i k op hop; simp [rowOps] at hop
  | cons p ps ih =>
      intro i k op hop
      by_cases hp : p.request_id = rid
      · simp only [rowOps, if_pos hp, List.mem_cons] at hop
        rcases hop with h | h
        · subst h; exact ⟨rfl, rfl⟩
        · exact ih _ _ op h
      · simp only [rowOps, if_neg hp] at hop
        exact ih _ _ op hop

/-- The attempt counter advances by exactly one per URL: every parsed
URL of the row is attempted. -/
theorem attemptUrls_counter (env : String → Nat → FetchOutcome)
    (names : Nat → String) :
    ∀ (us : List String) (k : Nat),
      (attemptUrls env names us k).2 = k + us.length := by
  intro us
  induction us with
  | nil => intro k; simp [attemptUrls]
  | cons u us ih =>
      intro k
      simp only [attemptUrls, List.length_cons]
      rw [ih (k + 1)]
      omega

/-- The collected outputs are the successful attempts in completion
order: the per-attempt results, failures dropped. -/
theorem attemptUrls_outputs (env : String → Nat → FetchOutcome)
    (names : Nat → String) :
    ∀ (us : List String) (k : Nat),
      (attemptUrls env names us k).1
        = (List.zipWith (fun u j => fetchOne (env u j) (names j))
            us (List.range' k us.length)).filterMap id := by
  intro us
  induction us with
  | nil => intro k; simp [attemptUrls]
  | cons u us ih =>
      intro k
      simp only [attemptUrls, List.length_cons, List.range'_succ,
                 List.zipWith_cons_cons, List.filterMap_cons]
      rw [← ih (k + 1)]
      cases fetchOne (env u k) (names k) <;> simp

/-- At most one output per URL attempted. -/
theorem attemptUrls_length_le (env : String → Nat → FetchOutcome)
    (names : Nat → String) :
    ∀ (us : List String) (k : Nat),
      (attemptUrls env names us k).1.length ≤ us.length := by
  intro us
  induction us with
  | nil => intro k; simp [attemptUrls]
  | cons u us ih =>
      intro k
      simp only [attemptUrls, List.length_cons]
      cases fetchOne (env u k) (names k) with
      | none => exact Nat.le_succ_of_le (ih (k + 1))
      | some url => simpa using Nat.succ_le_succ (ih (k + 1))

/-- The parsed URL list never has more entries than the raw split. -/
theorem parseUrls_length_le (s : String) :
    (parseUrls s).length ≤ (pySplit ',' s).length := by
  calc (parseUrls s).length
      ≤ ((pySplit ',' s).map pyStrip).length := List.length_filter_le _ _
    _ = (pySplit ',' s).length := List.length_map _ _

/-- Every product of the session after the row loop is either an
untouched product of another request, or the processed version of a
product of this request at some attempt counter. -/
theorem processProducts_mem (rid : String) (env : String → Nat → FetchOutcome)
    (names : Nat → String) :
    ∀ (ps : List Product) (k : Nat),
      ∀ p' ∈ (processProducts rid env names ps k).1,
        (p' ∈ ps ∧ p'.request_id ≠ rid)
        ∨ ∃ k0, ∃ p ∈ ps, p.request_id = rid ∧ p' = processOneRow env names k0 p := by
  intro ps
  induction ps with
  | nil => intro k p' h; simp [processProducts] at h
  | cons p ps ih =>
      intro k p' h
      by_cases hp : p.request_id = rid
      · simp only [processProducts, if_pos hp, List.mem_cons] at h
        rcases h with h | h
        · exact Or.inr ⟨k, p, List.mem_cons_self p ps, hp, h⟩
        · rcases ih _ p' h with ⟨hmem, hne⟩ | ⟨k0, q, hq, hqid, hq'⟩
          · exact Or.inl ⟨List.mem_cons_of_mem p hmem, hne⟩
          · exact Or.inr ⟨k0, q, List.mem_cons_of_mem p hq, hqid, hq'⟩
      · simp only [processProducts, if_neg hp, List.mem_cons] at h
        rcases h with h | h
        · subst h; exact Or.inl ⟨List.mem_cons_self p' ps, hp⟩
        · rcases ih _ p' h with ⟨hmem, hne⟩ | ⟨k0, q, hq, hqid, hq'⟩
          · exact Or.inl ⟨List.mem_cons_of_mem p hmem, hne⟩
          · exact Or.inr ⟨k0, q, List.mem_cons_of_mem p hq, hqid, hq'⟩

/-- The processed version keeps the identity fields and the stored
input list, sets status processed, and stores the joined outputs. -/
theorem processOneRow_fields (env : String → Nat → FetchOutcome)
    (names : Nat → String) (k : Nat) (p : Product) :
    (processOneRow env names k p).request_id = p.request_id
    ∧ (processOneRow env names k p).input_image_urls = p.input_image_urls
    ∧ (processOneRow env names k p).status = "processed"
    ∧ (processOneRow env names k p).output_image_urls
        = some (String.intercalate ","
            (attemptUrls env names (parseUrls p.input_image_urls) k).1) :=
  ⟨rfl, rfl, rfl, rfl⟩

/-- Every record after the request update is either an untouched record
of the table or the completed version of one of them. -/
theorem updateFirstRequest_mem (rid : String) (now : Nat) :
    ∀ (rs : List ProcessingRequest),
      ∀ r' ∈ updateFirstRequest rid now rs,
        r' ∈ rs
        ∨ ∃ r ∈ rs, r' = { r with status := "completed", completed_at := some now } := by
  intro rs
  induction rs with
  | nil => intro r' h; simp [updateFirstRequest] at h
  | cons r rs ih =>
      intro r' h
      by_cases hr : r.request_id = rid
      · simp only [updateFirstRequest, if_pos hr, List.mem_cons] at h
        rcases h with h | h
        · exact Or.inr ⟨r, List.mem_cons_self r rs, h⟩
        · exact Or.inl (List.mem_cons_of_mem r h)
      · simp only [updateFirstRequest, if_neg hr, List.mem_cons] at h
        rcases h with h | h
        · exact Or.inl (h ▸ List.mem_cons_self r rs)
        · rcases ih r' h with hmem | ⟨q, hq, hq'⟩
          · exact Or.inl (List.mem_cons_of_mem r hmem)
          · exact Or.inr ⟨q, List.mem_cons_of_mem r hq, hq'⟩

/-- The first record matching the request id is the one the update
rewrites to completed. -/
theorem find?_updateFirstRequest (rid : String) (now : Nat) :
    ∀ (rs : List ProcessingRequest) (r : ProcessingRequest),
      rs.find? (fun x => x.request_id = rid) = some r →
      (updateFirstRequest rid now rs).find? (fun x => x.request_id = rid)
        = some { r with status := "completed", completed_at := some now } := by
  intro rs
  induction rs with
  | nil => intro r h; simp [List.find?] at h
  | cons a rs ih =>
      intro r h
      by_cases ha : a.request_id = rid
      · rw [List.find?_cons_of_pos _ (by simpa using ha)] at h
        cases h
        simp only [updateFirstRequest, if_pos ha]
        exact List.find?_cons_of_pos _ (by simpa using ha)
      · rw [List.find?_cons_of_neg _ (by simpa using ha)] at h
        simp only [updateFirstRequest, if_neg ha]
        rw [List.find?_cons_of_neg _ (by simpa using ha)]
        exact ih r h

theorem set_append_length {α : Type} (pre : List α) (p p' : α) (ps : List α) :
    (pre ++ p :: ps).set pre.length p' = pre ++ p' :: ps := by
  induction pre with
  | nil => rfl
  | cons a l ih => simp [List.set, ih]

/-- Running the staged row loop from a session that holds the products
table pre ++ ps, where the loop starts at absolute position pre.length,
rewrites the ps part to its processed version and touches nothing else:
not the session requests, not the durable store, not the POST log. -/
theorem rowOps_run (rid : String) (env : String → Nat → FetchOutcome)
    (names : Nat → String) :
    ∀ (ps pre : List Product) (k : Nat) (s : Exec),
      s.session.products = pre ++ ps →
      (runOps s (rowOps rid env names ps pre.length k)).session.products
          = pre ++ (processProducts rid env names ps k).1
      ∧ (runOps s (rowOps rid env names ps pre.length k)).session.requests
          = s.session.requests
      ∧ (runOps s (rowOps rid env names ps pre.length k)).durable = s.durable
      ∧ (runOps s (rowOps rid env names ps pre.length k)).posts = s.posts := by
  intro ps
  induction ps with
  | nil =>
      intro pre k s hs
      exact ⟨hs, rfl, rfl, rfl⟩
  | cons p ps ih =>
      intro pre k s hs
      by_cases hp : p.request_id = rid
      · simp only [rowOps, if_pos hp, runOps_cons, processProducts]
        set p' := processOneRow env names k p with hp'
        set k' := (attemptUrls env names (parseUrls p.input_image_urls) k).2 with hk'
        set s' := step s (Op.mutate (fun d =>
          { d with products := d.products.set pre.length p' })) with hs'
        have hsess : s'.session.products = (pre ++ [p']) ++ ps := by
          simp only [hs', step, hs, set_append_length]
          simp
        have hlen : pre.length + 1 = (pre ++ [p']).length := by simp
        rw [hlen]
        rcases ih (pre ++ [p']) k' s' hsess with ⟨h1, h2, h3, h4⟩
        refine ⟨?_, ?_, ?_, ?_⟩
        · rw [h1]; simp
        · rw [h2]; simp [hs', step]
        · rw [h3]; simp [hs', step]
        · rw [h4]; simp [hs', step]
      · simp only [rowOps, if_neg hp, processProducts]
        have hsess : s.session.products = (pre ++ [p]) ++ ps := by
          simpa using hs
        have hlen : pre.length + 1 = (pre ++ [p]).length := by simp
        rw [hlen]
        rcases ih (pre ++ [p]) k s hsess with ⟨h1, h2, h3, h4⟩
        refine ⟨?_, h2, h3, h4⟩
        rw [h1]; simp

/-- No operation of the webhook stage reads or writes the database. -/
theorem webhookOps_no_touch (rid : String) (db : DB) :
    ∀ op ∈ webhookOps rid db, op.touchesDb = false := by
  intro op hop
  unfold webhookOps at hop
  split at hop
  · simp at hop
  · split at hop
    · simp at hop
    · split at hop
      · simp at hop
      · simp only [List.mem_singleton] at hop
        subst hop; rfl

/-- The session after the row loop of process_images holds exactly the
processed products table and the untouched requests table. -/
theorem session_after_rowOps (rid : String) (env : String → Nat → FetchOutcome)
    (names : Nat → String) (db : DB) :
    (runOps (initExec db) (rowOps rid env names db.products 0 0)).session
        = { requests := db.requests,
            products := (processProducts rid env names db.products 0).1 }
    ∧ (runOps (initExec db) (rowOps rid env names db.products 0 0)).durable = db
    ∧ (runOps (initExec db) (rowOps rid env names db.products 0 0)).posts = [] := by
  have h0 : (initExec db).session.products = [] ++ db.products := by simp [initExec]
  have h00 : (0 : Nat) = ([] : List Product).length := rfl
  rcases rowOps_run rid env names db.products [] 0 (initExec db) h0 with ⟨h1, h2, h3, h4⟩
  refine ⟨DB.ext ?_ ?_, ?_, ?_⟩
  · simpa [initExec] using h2
  · simpa using h1
  · simpa [initExec] using h3
  · simpa [initExec] using h4

/-- Running the trace up to and including the single commit yields the
process_images result as both the durable store and the session, with no
POST yet made. -/
theorem runOps_commit_point (rid : String) (env : String → Nat → FetchOutcome)
    (names : Nat → String) (now : Nat) (db : DB) :
    runOps (initExec db)
        (rowOps rid env names db.products 0 0
          ++ [Op.mutate (fun d => { d with requests := updateFirstRequest rid now d.requests }),
              Op.commit])
      = { durable := process_images rid env names now db,
          session := process_images rid env names now db,
          posts := [] } := by
  rcases session_after_rowOps rid env names db with ⟨h1, h2, h3⟩
  rw [runOps_append]
  set s1 := runOps (initExec db) (rowOps rid env names db.products 0 0) with hs1
  show step (step s1 (Op.mutate _)) Op.commit = _
  simp only [step, h1, h2, h3]
  rfl

/-- The final execution state of a successful run: the durable store and
the session hold the process_images result, and the POST log holds
exactly the webhook stage's attempts. -/
theorem processImagesRun_final (rid : String) (env : String → Nat → FetchOutcome)
    (names : Nat → String) (now : Nat) (db : DB) :
    (processImagesRun rid env names now db).durable = process_images rid env names now db
    ∧ (processImagesRun rid env names now db).session = process_images rid env names now db
    ∧ (processImagesRun rid env names now db).posts = (webhookOps rid db).filterMap postOf := by
  unfold processImagesRun processImagesOps
  rw [runOps_append, runOps_commit_point rid env names now db]
  rcases db_of_no_touch (webhookOps rid db) _ (webhookOps_no_touch rid db) with ⟨hd, hs⟩
  refine ⟨hd.trans rfl, hs.trans rfl, ?_⟩
  rw [runOps_posts]
  simp

/-- What a status query issued after any number j of executed operations
observes in the durable store: the untouched initial state at every
point up to and including the staging of the request update, and the
fully committed state from the commit on.  There is no intermediate
durable state. -/
theorem durable_after_take (rid : String) (env : String → Nat → FetchOutcome)
    (names : Nat → String) (now : Nat) (db : DB) (j : Nat) :
    (runOps (initExec db) ((processImagesOps rid env names now db).take j)).durable
      = if j ≤ (rowOps rid env names db.products 0 0).length + 1 then db
        else process_images rid env names now db := by
  by_cases hj : j ≤ (rowOps rid env names db.products 0 0).length + 1
  · rw [if_pos hj]
    have hops : processImagesOps rid env names now db
        = (rowOps rid env names db.products 0 0
            ++ [Op.mutate (fun d => { d with requests := updateFirstRequest rid now d.requests })])
          ++ (Op.commit :: webhookOps rid db) := by
      simp [processImagesOps, List.append_assoc]
    rw [hops, List.take_append_eq_append_take]
    have hz : j - (rowOps rid env names db.products 0 0
        ++ [Op.mutate (fun d => { d with requests := updateFirstRequest rid now d.requests })]).length = 0 := by
      simp only [List.length_append, List.length_cons, List.length_nil]
      omega
    rw [hz, List.take_zero, List.append_nil]
    apply durable_of_no_commit
    intro op hop
    have hmem := List.take_subset j _ hop
    rcases List.mem_append.mp hmem with h | h
    · exact (rowOps_no_commit rid env names db.products 0 0 op h).1
    · simp only [List.mem_singleton] at h
      subst h; rfl
  · rw [if_neg hj]
    have hops : processImagesOps rid env names now db
        = ((rowOps rid env names db.products 0 0
            ++ [Op.mutate (fun d => { d with requests := updateFirstRequest rid now d.requests }),
                Op.commit]))
          ++ webhookOps rid db := by
      simp [processImagesOps, List.append_assoc]
    rw [hops, List.take_append_eq_append_take]
    have hfull : (rowOps rid env names db.products 0 0
        ++ [Op.mutate (fun d => { d with requests := updateFirstRequest rid now d.requests }),
            Op.commit]).take j
        = rowOps rid env names db.products 0 0
            ++ [Op.mutate (fun d => { d with requests := updateFirstRequest rid now d.requests }),
                Op.commit] := by
      apply List.take_of_length_le
      simp only [List.length_append, List.length_cons, List.length_nil]
      omega
    rw [hfull, runOps_append, runOps_commit_point rid env names now db]
    have hsub : ∀ op ∈ (webhookOps rid db).take
        (j - (rowOps rid env names db.products 0 0
          ++ [Op.mutate (fun d => { d with requests := updateFirstRequest rid now d.requests }),
              Op.commit]).length), op.touchesDb = false := by
      intro op hop
      exact webhookOps_no_touch rid db op (List.take_subset _ _ hop)
    exact (db_of_no_touch _ _ hsub).1

/-- Every state of the durable store reachable during a successful
process_images run is either the initial state or the final committed
state. -/
theorem durableStates_mem_run (rid : String) (env : String → Nat → FetchOutcome)
    (names : Nat → String) (now : Nat) (db : DB) :
    ∀ d ∈ durableStates db (processImagesOps rid env names now db),
      d = db ∨ d = process_images rid env names now db := by
  intro d hd
  unfold durableStates at hd
  rcases List.mem_map.mp hd with ⟨j, _, rfl⟩
  rw [durable_after_take]
  by_cases h : j ≤ (rowOps rid env names db.products 0 0).length + 1
  · rw [if_pos h]; exact Or.inl rfl
  · rw [if_neg h]; exact Or.inr rfl

/-- C3: the claim reads "any 2xx success status code"; the code tests
status_code == 200 exactly, so a 201 response with a perfectly decodable
body produces no output reference. -/
theorem fetcher_requires_exact_200_cex :
    200 ≤ 201 ∧ 201 < 300
    ∧ fetchOne (FetchOutcome.response 201 true true) "u" = none := by
  decide

/-- C3 (amended: success requires status code exactly 200, not any 2xx):
a 200 response whose body decodes and re-encodes yields the
storage-relative path under the fresh name; any non-200 status code,
transport error, decode failure or encode failure yields no output and
prints the cause; the fixed JPEG quality factor is 50; the per-URL body
never propagates an exception, being a total function into Option. -/
theorem fetcher_contract_amended (name : String) (o : FetchOutcome) :
    fetchOne (FetchOutcome.response 200 true true) name
        = some ("/processed_images/" ++ name ++ ".jpg")
    ∧ (∀ code d e, code ≠ 200 → fetchOne (FetchOutcome.response code d e) name = none)
    ∧ (∀ code e, fetchOne (FetchOutcome.response code false e) name = none)
    ∧ (∀ code d, fetchOne (FetchOutcome.response code d false) name = none)
    ∧ fetchOne FetchOutcome.transportError name = none
    ∧ (fetchOne o name = none ↔ fetchLogged o = true)
    ∧ jpegQuality = 50 := by
  refine ⟨rfl, ?_, ?_, ?_, rfl, ?_, rfl⟩
  · intro code d e hcode
    simp [fetchOne, hcode]
  · intro code e
    by_cases h : code = 200 <;> simp [fetchOne, h]
  · intro code d
    by_cases h : code = 200 <;> simp [fetchOne, h]
  · cases o with
    | transportError => simp [fetchOne, fetchLogged]
    | response c d e =>
        by_cases h : c = 200
        · cases d <;> cases e <;> simp [fetchOne, fetchLogged, h]
        · simp [fetchOne, fetchLogged, h]

theorem fetcher_contract_amended_witness :
    fetchOne (FetchOutcome.response 404 true true) "u" = none :=
  (fetcher_contract_amended "u" FetchOutcome.transportError).2.1 404 true true (by decide)

/-- C8: an unhandled error at any point j of the orchestrator body rolls
the transaction back: the durable store is exactly the pre-run store, the
session is reset to it, and no webhook POST was made, so the job stays in
its last persisted status with no failure state visible to a caller. -/
theorem orchestrator_failure_rollback (rid : String)
    (env : String → Nat → FetchOutcome) (names : Nat → String)
    (now : Nat) (db : DB) (j : Nat) :
    (runOps (initExec db) (processImagesFailOps rid env names now db j)).durable = db
    ∧ (runOps (initExec db) (processImagesFailOps rid env names now db j)).session = db
    ∧ (runOps (initExec db) (processImagesFailOps rid env names now db j)).posts = [] := by
  unfold processImagesFailOps
  rw [runOps_append]
  have hnc : ∀ op ∈ (rowOps rid env names db.products 0 0
      ++ [Op.mutate (fun d => { d with requests := updateFirstRequest rid now d.requests })]).take j,
      op.isCommit = false ∧ postOf op = none := by
    intro op hop
    have hmem := List.take_subset j _ hop
    rcases List.mem_append.mp hmem with h | h
    · rcases rowOps_no_commit rid env names db.products 0 0 op h with ⟨h1, h2⟩
      exact ⟨h1, h2⟩
    · simp only [List.mem_singleton] at h
      subst h; exact ⟨rfl, rfl⟩
  have hd : (runOps (initExec db) ((rowOps rid env names db.products 0 0
      ++ [Op.mutate (fun d => { d with requests := updateFirstRequest rid now d.requests })]).take j)).durable
      = db :=
    durable_of_no_commit _ (initExec db) (fun op hop => (hnc op hop).1)
  have hposts : (runOps (initExec db) ((rowOps rid env names db.products 0 0
      ++ [Op.mutate (fun d => { d with requests := updateFirstRequest rid now d.requests })]).take j)).posts
      = [] := by
    rw [runOps_posts]
    have : (((rowOps rid env names db.products 0 0
        ++ [Op.mutate (fun d => { d with requests := updateFirstRequest rid now d.requests })]).take j)).filterMap postOf = [] :=
      List.filterMap_eq_nil_iff.mpr (fun op hop => (hnc op hop).2)
    rw [this]
    rfl
  refine ⟨?_, ?_, ?_⟩
  · show (step _ Op.rollback).durable = db
    simpa [step] using hd
  · show (step _ Op.rollback).session = db
    simpa [step] using hd
  · show (step _ Op.rollback).posts = []
    simpa [step] using hposts

/-- A data row without exactly 3 fields anywhere in the upload aborts
the row loop with the HTTPException. -/
theorem buildProducts_none_of_bad_row (rid : String) :
    ∀ rows : List (List String), (∃ row ∈ rows, row.length ≠ 3) →
      buildProducts rid rows = none := by
  intro rows
  induction rows with
  | nil => rintro ⟨row, hmem, _⟩; simp at hmem
  | cons row rows ih =>
      rintro ⟨bad, hmem, hlen⟩
      rcases List.mem_cons.mp hmem with rfl | hmem
      · match bad, hlen with
        | [], _ => rfl
        | [a], _ => rfl
        | [a, b], _ => rfl
        | a :: b :: c :: d :: rest, h => rfl
        | [a, b, c], h => exact absurd rfl h
      · have hnone := ih ⟨bad, hmem, hlen⟩
        match row with
        | [] => rfl
        | [a] => rfl
        | [a, b] => rfl
        | a :: b :: c :: d :: rest => rfl
        | [a, b, c] => simp [buildProducts, hnone]

/-- When every data row has exactly 3 fields the row loop builds one
pending product per row, each carrying the new request id, stripped
fields and a null output list. -/
theorem buildProducts_of_good_rows (rid : String) :
    ∀ rows : List (List String), (∀ row ∈ rows, row.length = 3) →
      ∃ ps, buildProducts rid rows = some ps
        ∧ ps.length = rows.length
        ∧ ∀ p ∈ ps, p.request_id = rid ∧ p.status = "pending"
            ∧ p.output_image_urls = none := by
  intro rows
  induction rows with
  | nil => intro _; exact ⟨[], rfl, rfl, fun p hp => by simp at hp⟩
  | cons row rows ih =>
      intro hall
      have hrow := hall row (List.mem_cons_self row rows)
      have htail : ∀ r ∈ rows, r.length = 3 :=
        fun r hr => hall r (List.mem_cons_of_mem row hr)
      rcases ih htail with ⟨ps, hps, hlen, hmem⟩
      match row, hrow with
      | [a, b, c], _ =>
          refine ⟨{ request_id := rid, serial_number := pyStrip a,
                    product_name := pyStrip b, input_image_urls := pyStrip c,
                    output_image_urls := none, status := "pending" } :: ps, ?_, ?_, ?_⟩
          · simp [buildProducts, hps]
          · simp [hlen]
          · intro p hp
            rcases List.mem_cons.mp hp with rfl | hp
            · exact ⟨rfl, rfl, rfl⟩
            · exact hmem p hp

/-- C6 counterexample: the underscore is non-alphanumeric, so under the
normalization the claim describes the header S_No, Product Name, Input
Image Urls matches the canonical form and would be accepted; the code's
normalize keeps the underscore (regex word characters) and rejects the
upload with a 400. -/
theorem header_underscore_cex :
    (["S_No", "Product Name", "Input Image Urls"].map normalizeSpec = expectedHeader)
    ∧ (["S_No", "Product Name", "Input Image Urls"].map normalize ≠ expectedHeader)
    ∧ (upload_csv "text/csv" [["S_No", "Product Name", "Input Image Urls"], ["1", "w", "u"]]
        none "r1" 0 { requests := [], products := [] }
        = UploadResult.httpError 400 "Invalid CSV header format.") := by
  decide

/-- C6 (amended: the characters removed are the non-word characters,
that is non-alphanumeric except the underscore): a header is accepted,
meaning the upload proceeds past header validation, exactly when its
columns normalize under the code's rule to sno, productname,
inputimageurls in order; the spec's three examples all do; any other
header draws the 400 header response. -/
theorem header_normalization_wordchars (header : List String)
    (dataRows : List (List String)) (w : Option String) (rid : String)
    (t : Nat) (db : DB) :
    (header.map normalize = expectedHeader ↔
        upload_csv "text/csv" (header :: dataRows) w rid t db
          ≠ UploadResult.httpError 400 "Invalid CSV header format.")
    ∧ (["S. No", " Product-Name ", "InputImageURLs"].map normalize = expectedHeader)
    ∧ (header.map normalize ≠ expectedHeader →
        upload_csv "text/csv" (header :: dataRows) w rid t db
          = UploadResult.httpError 400 "Invalid CSV header format.") := by
  have hbad : ∀ h : header.map normalize ≠ expectedHeader,
      upload_csv "text/csv" (header :: dataRows) w rid t db
        = UploadResult.httpError 400 "Invalid CSV header format." := by
    intro h
    simp [upload_csv, h]
  refine ⟨?_, by decide, hbad⟩
  constructor
  · intro h
    cases hb : buildProducts rid dataRows with
    | none => simp [upload_csv, h, hb]
    | some ps => simp [upload_csv, h, hb]
  · intro hne
    by_contra h
    exact hne (hbad h)

theorem header_normalization_wordchars_witness :
    (["S_No", "Product Name", "Input Image Urls"].map normalize ≠ expectedHeader)
    ∧ upload_csv "text/csv" [["S_No", "Product Name", "Input Image Urls"]]
        none "r1" 0 { requests := [], products := [] }
        = UploadResult.httpError 400 "Invalid CSV header format." :=
  ⟨by decide,
   (header_normalization_wordchars ["S_No", "Product Name", "Input Image Urls"]
     [] none "r1" 0 { requests := [], products := [] }).2.2 (by decide)⟩

/-- C7: an upload in which some data row lacks exactly 3 fields draws a
400 and commits nothing, leaving the store unchanged; a valid upload
with N data rows commits exactly one new pending request plus N new
pending rows, each with a null output list, and under fresh-id
assumptions the request's row count is exactly N and its job records
count exactly one. -/
theorem upload_row_count_validation (ct : String) (header : List String)
    (dataRows : List (List String)) (w : Option String) (rid : String)
    (t : Nat) (db : DB) :
    ((∃ row ∈ dataRows, row.length ≠ 3) →
        (∃ detail, upload_csv ct (header :: dataRows) w rid t db
            = UploadResult.httpError 400 detail)
        ∧ uploadRun ct (header :: dataRows) w rid t db = db)
    ∧ (ct = "text/csv" → header.map normalize = expectedHeader →
        (∀ row ∈ dataRows, row.length = 3) →
        ∃ ps, upload_csv ct (header :: dataRows) w rid t db
            = UploadResult.ok rid
                { requests := db.requests ++ [newRequest rid t w],
                  products := db.products ++ ps }
          ∧ ps.length = dataRows.length
          ∧ (∀ p ∈ ps, p.request_id = rid ∧ p.status = "pending"
                ∧ p.output_image_urls = none)
          ∧ ((∀ p ∈ db.products, p.request_id ≠ rid) →
              (productsOf
                  { requests := db.requests ++ [newRequest rid t w],
                    products := db.products ++ ps }
                  rid).length = dataRows.length)) := by
  constructor
  · intro hbad
    have hnone := buildProducts_none_of_bad_row rid dataRows hbad
    by_cases hct : ct = "text/csv"
    · subst hct
      by_cases hh : header.map normalize = expectedHeader
      · refine ⟨⟨"CSV row does not have exactly 3 columns.", ?_⟩, ?_⟩
        · simp [upload_csv, hh, hnone]
        · simp [uploadRun, upload_csv, hh, hnone]
      · refine ⟨⟨"Invalid CSV header format.", ?_⟩, ?_⟩
        · simp [upload_csv, hh]
        · simp [uploadRun, upload_csv, hh]
    · refine ⟨⟨"Invalid file type. Only CSV files are accepted.", ?_⟩, ?_⟩
      · simp [upload_csv, hct]
      · simp [uploadRun, upload_csv, hct]
  · intro hct hh hgood
    subst hct
    rcases buildProducts_of_good_rows rid dataRows hgood with ⟨ps, hps, hlen, hmem⟩
    refine ⟨ps, ?_, hlen, hmem, ?_⟩
    · simp [upload_csv, hh, hps, newRequest]
    · intro hfresh
      unfold productsOf
      simp only [List.filter_append]
      have h1 : db.products.filter (fun p => p.request_id = rid) = [] := by
        apply List.filter_eq_nil_iff.mpr
        intro p hp
        simpa using hfresh p hp
      have h2 : ps.filter (fun p => p.request_id = rid) = ps := by
        apply List.filter_eq_self.mpr
        intro p hp
        simpa using (hmem p hp).1
      rw [h1, h2]
      simpa using hlen

theorem upload_row_count_validation_witness :
    ((["1", "w"] : List String).length ≠ 3)
    ∧ uploadRun "text/csv"
        [["S. No", "Product Name", "Input Image Urls"], ["1", "w"]]
        none "r1" 0 exDb = exDb :=
  ⟨by decide,
   ((upload_row_count_validation "text/csv" ["S. No", "Product Name", "Input Image Urls"]
       [["1", "w"]] none "r1" 0 exDb).1 ⟨["1", "w"], by decide, by decide⟩).2⟩


/-- C1: the request record flips to completed with completed_at set at
the same single commit, that commit happens only after the row loop has
visited every row of the job, and in every durable state reachable
during the run completed_at is non-null exactly when status is
completed; in particular any durable state in which the job reads
completed already has every one of its rows processed. -/
theorem job_completion_terminal_invariant (rid : String)
    (env : String → Nat → FetchOutcome) (names : Nat → String) (now : Nat)
    (db : DB) (r : ProcessingRequest)
    (hfind : db.requests.find? (fun x => x.request_id = rid) = some r)
    (hpend : ∀ x ∈ db.requests, x.request_id = rid → x.status = "pending")
    (hinv : ∀ x ∈ db.requests, x.completed_at ≠ none ↔ x.status = "completed") :
    (∀ d ∈ durableStates db (processImagesOps rid env names now db),
        ∀ x ∈ d.requests, x.completed_at ≠ none ↔ x.status = "completed")
    ∧ (∀ d ∈ durableStates db (processImagesOps rid env names now db),
        ∀ x, d.requests.find? (fun y => y.request_id = rid) = some x →
          x.status = "completed" →
            ∀ p ∈ d.products, p.request_id = rid → p.status = "processed")
    ∧ (process_images rid env names now db).requests.find? (fun y => y.request_id = rid)
        = some { r with status := "completed", completed_at := some now } := by
  have hfinal := find?_updateFirstRequest rid now db.requests r hfind
  refine ⟨?_, ?_, hfinal⟩
  · intro d hd x hx
    rcases durableStates_mem_run rid env names now db d hd with rfl | rfl
    · exact hinv x hx
    · rcases updateFirstRequest_mem rid now db.requests x hx with hmem | ⟨q, _, rfl⟩
      · exact hinv x hmem
      · simp
  · intro d hd x hfx hxc p hp hpid
    rcases durableStates_mem_run rid env names now db d hd with rfl | rfl
    · have hxmem := List.mem_of_find?_eq_some hfx
      have hxid : x.request_id = rid := by
        have := List.find?_some hfx
        simpa using this
      have hxp := hpend x hxmem hxid
      rw [hxp] at hxc
      exact absurd hxc (by decide)
    · rcases processProducts_mem rid env names db.products 0 p hp with ⟨_, hne⟩ | ⟨k0, q, _, _, rfl⟩
      · exact absurd hpid hne
      · rfl

theorem job_completion_terminal_invariant_witness :
    (exDb.requests.find? (fun x => x.request_id = "r1") = some exRequest
      ∧ (∀ x ∈ exDb.requests, x.request_id = "r1" → x.status = "pending")
      ∧ (∀ x ∈ exDb.requests, x.completed_at ≠ none ↔ x.status = "completed"))
    ∧ (process_images "r1" exEnvFail exNames 7 exDb).requests.find?
          (fun y => y.request_id = "r1")
        = some { exRequest with status := "completed", completed_at := some 7 } :=
  ⟨⟨by decide, by decide, by decide⟩,
   (job_completion_terminal_invariant "r1" exEnvFail exNames 7 exDb exRequest
      (by decide) (by decide) (by decide)).2.2⟩

/-- C2: the row processor splits the stored input_image_urls on the
comma, strips each entry and drops the entries that are empty after
stripping; it attempts every remaining URL sequentially (the attempt
counter advances once per entry), collects exactly the successful
results in completion order, sets the row status to processed
unconditionally, stores the comma-join of the successes, and the number
of outputs never exceeds the number of input entries. -/
theorem row_processor_contract (env : String → Nat → FetchOutcome)
    (names : Nat → String) (s : String) (k : Nat) (p : Product)
    (rid : String) (now : Nat) (db : DB) :
    ((attemptUrls env names (parseUrls s) k).2 = k + (parseUrls s).length)
    ∧ ((attemptUrls env names (parseUrls s) k).1
        = (List.zipWith (fun u j => fetchOne (env u j) (names j))
            (parseUrls s) (List.range' k (parseUrls s).length)).filterMap id)
    ∧ ((processOneRow env names k p).status = "processed")
    ∧ ((processOneRow env names k p).output_image_urls
        = some (String.intercalate ","
            (attemptUrls env names (parseUrls p.input_image_urls) k).1))
    ∧ ((attemptUrls env names (parseUrls s) k).1.length ≤ (pySplit ',' s).length)
    ∧ (∀ u ∈ parseUrls s, u ≠ "" ∧ u ∈ (pySplit ',' s).map pyStrip)
    ∧ (∀ p' ∈ (process_images rid env names now db).products,
          p'.request_id = rid →
            p'.status = "processed"
            ∧ ∃ k0, p'.output_image_urls = some (String.intercalate ","
                (attemptUrls env names (parseUrls p'.input_image_urls) k0).1)) := by
  refine ⟨attemptUrls_counter env names (parseUrls s) k,
          attemptUrls_outputs env names (parseUrls s) k,
          rfl, rfl, ?_, ?_, ?_⟩
  · exact le_trans (attemptUrls_length_le env names (parseUrls s) k)
      (parseUrls_length_le s)
  · intro u hu
    unfold parseUrls at hu
    have hu2 := List.mem_filter.mp hu
    exact ⟨by simpa using hu2.2, hu2.1⟩
  · intro p' hp' hpid
    rcases processProducts_mem rid env names db.products 0 p' hp' with ⟨_, hne⟩ | ⟨k0, q, _, _, rfl⟩
    · exact absurd hpid hne
    · exact ⟨rfl, k0, rfl⟩

theorem row_processor_contract_witness :
    ("a" ∈ parseUrls "a, ,b")
    ∧ ("a" ≠ "" ∧ "a" ∈ (pySplit ',' "a, ,b").map pyStrip) :=
  ⟨by decide,
   (row_processor_contract exEnvFail exNames "a, ,b" 0 exProduct1 "r1" 0
      exDb).2.2.2.2.2.1 "a" (by decide)⟩

/-- C4 counterexample: run the orchestrator on a job with two pending
rows where every fetch fails, stopping right after the first row's run
has finished (one staged mutation executed).  The session already shows
row 1 processed, but the durable store an independent status query reads
is byte-for-byte the initial one: both rows still pending.  The claim
says the first row's mutation is already durably persisted at this
point. -/
theorem row_mutation_not_durable_midflight_cex :
    ((runOps (initExec exDb)
        ((processImagesOps "r1" exEnvFail exNames 7 exDb).take 1)).session.products.map
          Product.status = ["processed", "pending"])
    ∧ ((runOps (initExec exDb)
        ((processImagesOps "r1" exEnvFail exNames 7 exDb).take 1)).durable.products.map
          Product.status = ["pending", "pending"])
    ∧ ((runOps (initExec exDb)
        ((processImagesOps "r1" exEnvFail exNames 7 exDb).take 1)).durable = exDb) := by
  decide

/-- C4 (amended: the row mutation is staged in the session at the end of
the row's run, but becomes durable only at the single commit issued
after all rows and the job update; a status query mid-flight still
observes every row in its initial state): before the commit point the
durable store equals the initial store at every prefix, the committed
final store is the process_images result, and the session after the row
loop holds the processed products table. -/
theorem row_staging_single_commit (rid : String)
    (env : String → Nat → FetchOutcome) (names : Nat → String) (now : Nat)
    (db : DB) (j : Nat)
    (hj : j ≤ (rowOps rid env names db.products 0 0).length + 1) :
    (runOps (initExec db) ((processImagesOps rid env names now db).take j)).durable = db
    ∧ (processImagesRun rid env names now db).durable = process_images rid env names now db
    ∧ (runOps (initExec db) (rowOps rid env names db.products 0 0)).session.products
        = (processProducts rid env names db.products 0).1 := by
  refine ⟨?_, (processImagesRun_final rid env names now db).1, ?_⟩
  · rw [durable_after_take, if_pos hj]
  · rw [(session_after_rowOps rid env names db).1]

theorem row_staging_single_commit_witness :
    (1 ≤ (rowOps "r1" exEnvFail exNames exDb.products 0 0).length + 1)
    ∧ (runOps (initExec exDb)
        ((processImagesOps "r1" exEnvFail exNames 7 exDb).take 1)).durable = exDb :=
  ⟨by decide,
   (row_staging_single_commit "r1" exEnvFail exNames 7 exDb 1 (by decide)).1⟩

/-- C5: once the job is completed, the status path writes the artifact
only when the file is absent; a second status call returns the existing
file untouched, so the artifact is generated at most once and its
content is stable; the content is the fixed header row followed by one
rendered row per product of the job in load order, the fourth cell being
the stored output list or the empty field. -/
theorem artifact_generation_idempotent (rid : String) (db : DB)
    (fs : Option (List (List String))) (r : ProcessingRequest)
    (hfind : db.requests.find? (fun x => x.request_id = rid) = some r)
    (hc : r.status = "completed") :
    getStatusArtifact rid db none = some (generate_output_csv rid db)
    ∧ (getStatusArtifact rid db (getStatusArtifact rid db fs)
        = getStatusArtifact rid db fs)
    ∧ (∀ content, getStatusArtifact rid db (some content) = some content)
    ∧ ((generate_output_csv rid db).head? = some artifactHeader)
    ∧ ((generate_output_csv rid db).length = (productsOf db rid).length + 1)
    ∧ (∀ i, (generate_output_csv rid db).get? (i + 1)
        = ((productsOf db rid).get? i).map renderRow)
    ∧ (∀ p : Product, renderRow p
        = [p.serial_number, p.product_name, p.input_image_urls,
           p.output_image_urls.getD ""]) := by
  have hone : ∀ fs0, getStatusArtifact rid db fs0
      = match fs0 with
        | some content => some content
        | none => some (generate_output_csv rid db) := by
    intro fs0
    unfold getStatusArtifact
    rw [hfind]
    simp [hc]
  refine ⟨hone none, ?_, fun content => hone (some content), rfl, ?_, ?_, ?_⟩
  · cases fs with
    | none => rw [hone none, hone (some (generate_output_csv rid db))]
    | some content => rw [hone (some content), hone (some content)]
  · simp [generate_output_csv]
  · intro i
    simp [generate_output_csv, List.get?_eq_getElem?, List.getElem?_map]
  · intro p
    cases hp : p.output_image_urls <;> simp [renderRow, hp]

theorem artifact_generation_idempotent_witness :
    (exDbDone.requests.find? (fun x => x.request_id = "r1") = some exRequestDone
      ∧ exRequestDone.status = "completed")
    ∧ getStatusArtifact "r1" exDbDone none = some (generate_output_csv "r1" exDbDone) :=
  ⟨⟨by decide, by decide⟩,
   (artifact_generation_idempotent "r1" exDbDone none exRequestDone
      (by decide) (by decide)).1⟩

/-- C9: after the commit that completes the job, the run makes exactly
one POST, carrying the job id, the literal status completed and the
5-unit timeout, precisely when the job's callback_url is set and
non-empty, and no POST otherwise; no operation of the webhook stage
reads or writes the database, so the persisted status stays completed
whatever the delivery outcome. -/
theorem webhook_single_attempt (rid : String)
    (env : String → Nat → FetchOutcome) (names : Nat → String) (now : Nat)
    (db : DB) (r : ProcessingRequest)
    (hfind : db.requests.find? (fun x => x.request_id = rid) = some r) :
    (∀ u, r.callback_url = some u → u ≠ "" →
        (processImagesRun rid env names now db).posts
          = [{ url := u, payload_request_id := rid,
               payload_status := "completed", timeout := 5 }])
    ∧ (r.callback_url = none → (processImagesRun rid env names now db).posts = [])
    ∧ (r.callback_url = some "" → (processImagesRun rid env names now db).posts = [])
    ∧ (∀ op ∈ webhookOps rid db, Op.touchesDb op = false)
    ∧ ((processImagesRun rid env names now db).durable.requests.find?
          (fun x => x.request_id = rid)
        = some { r with status := "completed", completed_at := some now }) := by
  have hposts := (processImagesRun_final rid env names now db).2.2
  have hdur := (processImagesRun_final rid env names now db).1
  refine ⟨?_, ?_, ?_, webhookOps_no_touch rid db, ?_⟩
  · intro u hu hne
    rw [hposts]
    simp [webhookOps, hfind, hu, hne, postOf]
  · intro hu
    rw [hposts]
    simp [webhookOps, hfind, hu]
  · intro hu
    rw [hposts]
    simp [webhookOps, hfind, hu]
  · rw [hdur]
    exact find?_updateFirstRequest rid now db.requests r hfind

theorem webhook_single_attempt_witness :
    (exDb.requests.find? (fun x => x.request_id = "r1") = some exRequest
      ∧ exRequest.callback_url = some "http://cb.example/hook")
    ∧ (processImagesRun "r1" exEnvFail exNames 7 exDb).posts
        = [{ url := "http://cb.example/hook", payload_request_id := "r1",
             payload_status := "completed", timeout := 5 }] :=
  ⟨⟨by decide, by decide⟩,
   (webhook_single_attempt "r1" exEnvFail exNames 7 exDb exRequest
      (by decide)).1 "http://cb.example/hook" rfl (by decide)⟩

/-- C10: in every reachable durable state output_image_urls is null
exactly on rows not yet processed (given the invariant initially); a
processed row of the job always carries some joined output text, the
join of zero successes being the empty text, which is distinct from
null; and the artifact renders a null output list as the empty field. -/
theorem output_urls_null_iff_unprocessed (rid : String)
    (env : String → Nat → FetchOutcome) (names : Nat → String) (now : Nat)
    (db : DB)
    (hinv : ∀ p ∈ db.products, p.output_image_urls = none ↔ p.status ≠ "processed") :
    (∀ d ∈ durableStates db (processImagesOps rid env names now db),
        ∀ p ∈ d.products, p.output_image_urls = none ↔ p.status ≠ "processed")
    ∧ (∀ p ∈ (process_images rid env names now db).products, p.request_id = rid →
          ∃ outs, p.output_image_urls = some (String.intercalate "," outs))
    ∧ (String.intercalate "," ([] : List String) = "")
    ∧ ((some "" : Option String) ≠ none)
    ∧ (∀ p : Product, p.output_image_urls = none →
          renderRow p = [p.serial_number, p.product_name, p.input_image_urls, ""]) := by
  refine ⟨?_, ?_, by decide, by decide, ?_⟩
  · intro d hd p hp
    rcases durableStates_mem_run rid env names now db d hd with rfl | rfl
    · exact hinv p hp
    · rcases processProducts_mem rid env names db.products 0 p hp with ⟨hmem, _⟩ | ⟨k0, q, _, _, rfl⟩
      · exact hinv p hmem
      · constructor
        · intro h
          simp [processOneRow] at h
        · intro h
          exact absurd rfl h
  · intro p hp hpid
    rcases processProducts_mem rid env names db.products 0 p hp with ⟨_, hne⟩ | ⟨k0, q, _, _, rfl⟩
    · exact absurd hpid hne
    · exact ⟨_, rfl⟩
  · intro p hp
    simp [renderRow, hp]

theorem output_urls_null_iff_unprocessed_witness :
    (∀ p ∈ exDb.products, p.output_image_urls = none ↔ p.status ≠ "processed")
    ∧ (String.intercalate "," ([] : List String) = "") :=
  ⟨by decide,
   (output_urls_null_iff_unprocessed "r1" exEnvFail exNames 7 exDb
      (by decide)).2.2.1⟩

end ImageProcessor
